import Mathlib

/-!
Verification of the `dec-sixbit` codec.

Shallow embedding of the `dec-sixbit` Rust crate (DEC SIXBIT string
encoding).  A Rust `&str` is modelled as a `List Nat` of its UTF-8
bytes, a `Vec<u8>` as a `List Nat` of values `< 256`.  Machine-integer
truncation (`as u8`, `u8` shifts) is made explicit with `% 256`; the
bitwise operators `<<<`, `>>>`, `&&&`, `|||` are the `Nat` versions,
which coincide with the Rust `u8`/`u16`/`u32` operators on the value
ranges that occur.

Sources embedded: `src/lib.rs` (constants, `Error`), `src/encode.rs`
(`encode`, `encode_unchecked`), `src/decode.rs` (`decode`,
`decode_unchecked`, `decode_core`), `src/struct_api.rs` (`DecSixbit`:
`new`, `as_bytes`, `try_from_slice`, the `Display` rendering).
-/

/-! ## Constants from `src/lib.rs` -/

def MASK_TWO_BITS : Nat := 0b11

def MASK_FOUR_BITS : Nat := 0b1111

def MASK_SIX_BITS : Nat := 0b111111

def SHIFT_TWO_BITS : Nat := 2

def SHIFT_FOUR_BITS : Nat := 4

def SHIFT_SIX_BITS : Nat := 6

def ASCII_OFFSET : Nat := 32

/-- The error enum of `src/lib.rs`.  It has exactly two variants. -/
inductive Error where
  | InvalidCharacter : Error
  | InvalidBytesLength : Error
deriving DecidableEq

/-- Truncation to a `u8` value, i.e. the effect of Rust's `as u8` cast
and of value overflow in `u8` arithmetic. -/
def u8 (x : Nat) : Nat := x % 256

/-! ## `src/encode.rs` -/

/-- The packing loop of `encode_unchecked` (`src/encode.rs` lines
146-203): the `for chunk_idx in 0..full_chunks` loop packs each group
of 4 codes into 3 bytes, and the `match chunk.len()` packs a trailing
group of 3, 2 or 1 codes into 3, 2 or 1 bytes.  The loop with index
arithmetic is rendered as structural recursion consuming 4 codes at a
time; the first match arm fires exactly when a full chunk remains.
Codes are turned into sixbit values by subtracting `ASCII_OFFSET`
(callers guarantee codes `≥ 32`, so `Nat` subtraction agrees with the
`u8` subtraction of the source). -/
def packChunks : List Nat → List Nat
  | c0 :: c1 :: c2 :: c3 :: rest =>
    let a := c0 - ASCII_OFFSET
    let b := c1 - ASCII_OFFSET
    let c := c2 - ASCII_OFFSET
    let d := c3 - ASCII_OFFSET
    (u8 (a <<< SHIFT_TWO_BITS) ||| (b >>> SHIFT_FOUR_BITS)) ::
      (u8 ((b &&& MASK_FOUR_BITS) <<< SHIFT_FOUR_BITS) ||| (c >>> SHIFT_TWO_BITS)) ::
      (u8 ((c &&& MASK_TWO_BITS) <<< SHIFT_SIX_BITS) ||| d) ::
      packChunks rest
  | [c0, c1, c2] =>
    let a := c0 - ASCII_OFFSET
    let b := c1 - ASCII_OFFSET
    let c := c2 - ASCII_OFFSET
    [u8 (a <<< SHIFT_TWO_BITS) ||| (b >>> SHIFT_FOUR_BITS),
     u8 ((b &&& MASK_FOUR_BITS) <<< SHIFT_FOUR_BITS) ||| (c >>> SHIFT_TWO_BITS),
     u8 ((c &&& MASK_TWO_BITS) <<< SHIFT_SIX_BITS)]
  | [c0, c1] =>
    let a := c0 - ASCII_OFFSET
    let b := c1 - ASCII_OFFSET
    [u8 (a <<< SHIFT_TWO_BITS) ||| (b >>> SHIFT_FOUR_BITS),
     u8 ((b &&& MASK_FOUR_BITS) <<< SHIFT_FOUR_BITS)]
  | [c0] =>
    [u8 ((c0 - ASCII_OFFSET) <<< SHIFT_TWO_BITS)]
  | [] => []

/-- `encode_unchecked` (`src/encode.rs` lines 140-206): packs without
validation and returns the bytes together with the input length. -/
def encode_unchecked (s : List Nat) : List Nat × Nat :=
  (packChunks s, s.length)

/-- The validating packing loop of `encode` (`src/encode.rs` lines
36-120): identical to `packChunks` except that every chunk is first
checked to lie in `ASCII_OFFSET..=95`; the first offending chunk makes
the whole call return `Error::InvalidCharacter`. -/
def encodeChecked : List Nat → Except Error (List Nat)
  | c0 :: c1 :: c2 :: c3 :: rest =>
    if (ASCII_OFFSET ≤ c0 ∧ c0 ≤ 95) ∧ (ASCII_OFFSET ≤ c1 ∧ c1 ≤ 95) ∧
       (ASCII_OFFSET ≤ c2 ∧ c2 ≤ 95) ∧ (ASCII_OFFSET ≤ c3 ∧ c3 ≤ 95) then
      let a := c0 - ASCII_OFFSET
      let b := c1 - ASCII_OFFSET
      let c := c2 - ASCII_OFFSET
      let d := c3 - ASCII_OFFSET
      match encodeChecked rest with
      | Except.ok tail =>
        Except.ok ((u8 (a <<< SHIFT_TWO_BITS) ||| (b >>> SHIFT_FOUR_BITS)) ::
          (u8 ((b &&& MASK_FOUR_BITS) <<< SHIFT_FOUR_BITS) ||| (c >>> SHIFT_TWO_BITS)) ::
          (u8 ((c &&& MASK_TWO_BITS) <<< SHIFT_SIX_BITS) ||| d) :: tail)
      | Except.error e => Except.error e
    else Except.error Error.InvalidCharacter
  | [c0, c1, c2] =>
    if (ASCII_OFFSET ≤ c0 ∧ c0 ≤ 95) ∧ (ASCII_OFFSET ≤ c1 ∧ c1 ≤ 95) ∧
       (ASCII_OFFSET ≤ c2 ∧ c2 ≤ 95) then
      let a := c0 - ASCII_OFFSET
      let b := c1 - ASCII_OFFSET
      let c := c2 - ASCII_OFFSET
      Except.ok [u8 (a <<< SHIFT_TWO_BITS) ||| (b >>> SHIFT_FOUR_BITS),
        u8 ((b &&& MASK_FOUR_BITS) <<< SHIFT_FOUR_BITS) ||| (c >>> SHIFT_TWO_BITS),
        u8 ((c &&& MASK_TWO_BITS) <<< SHIFT_SIX_BITS)]
    else Except.error Error.InvalidCharacter
  | [c0, c1] =>
    if (ASCII_OFFSET ≤ c0 ∧ c0 ≤ 95) ∧ (ASCII_OFFSET ≤ c1 ∧ c1 ≤ 95) then
      let a := c0 - ASCII_OFFSET
      let b := c1 - ASCII_OFFSET
      Except.ok [u8 (a <<< SHIFT_TWO_BITS) ||| (b >>> SHIFT_FOUR_BITS),
        u8 ((b &&& MASK_FOUR_BITS) <<< SHIFT_FOUR_BITS)]
    else Except.error Error.InvalidCharacter
  | [c0] =>
    if ASCII_OFFSET ≤ c0 ∧ c0 ≤ 95 then
      Except.ok [u8 ((c0 - ASCII_OFFSET) <<< SHIFT_TWO_BITS)]
    else Except.error Error.InvalidCharacter
  | [] => Except.ok []

/-- `encode` (`src/encode.rs` lines 26-123): rejects non-ASCII input
up front (`str.is_ascii()`, i.e. every byte `≤ 127`), then validates
and packs chunk by chunk. -/
def encode (s : List Nat) : Except Error (List Nat × Nat) :=
  if s.all (fun c => c ≤ 127) then
    match encodeChecked s with
    | Except.ok bytes => Except.ok (bytes, s.length)
    | Except.error e => Except.error e
  else Except.error Error.InvalidCharacter

/-! ## `src/decode.rs` -/

/-- The full-chunk loop of `decode_core` (`src/decode.rs` lines
76-97): for each of the `full_chunks` iterations, three bytes at
`byte_idx = chunk_idx * 3` are combined into a 24-bit value and four
sixbit values are extracted and offset back to ASCII.  The loop is
rendered as recursion on the chunk count, advancing the byte slice by
3 each step; `List.getD _ 0` stands for the raw indexed reads. -/
def decodeFullChunks : Nat → List Nat → List Nat
  | 0, _ => []
  | k + 1, bytes =>
    let b0 := bytes.getD 0 0
    let b1 := bytes.getD 1 0
    let b2 := bytes.getD 2 0
    let combined := (b0 <<< 16) ||| (b1 <<< 8) ||| b2
    ((u8 (combined >>> 18) &&& MASK_SIX_BITS) + ASCII_OFFSET) ::
      ((u8 (combined >>> 12) &&& MASK_SIX_BITS) + ASCII_OFFSET) ::
      ((u8 (combined >>> 6) &&& MASK_SIX_BITS) + ASCII_OFFSET) ::
      ((u8 combined &&& MASK_SIX_BITS) + ASCII_OFFSET) ::
      decodeFullChunks k (bytes.drop 3)

/-- The `match remaining_chars` block of `decode_core`
(`src/decode.rs` lines 100-148), applied to the byte slice starting at
`full_chunks * 3`. -/
def decodeRemaining (r : Nat) (remBytes : List Nat) : List Nat :=
  match r with
  | 1 => [(remBytes.getD 0 0 >>> 2) + ASCII_OFFSET]
  | 2 =>
    let b0 := remBytes.getD 0 0
    let b1 := remBytes.getD 1 0
    let combined := (b0 <<< 8) ||| b1
    [(u8 (combined >>> 10) &&& MASK_SIX_BITS) + ASCII_OFFSET,
     (u8 (combined >>> 4) &&& MASK_SIX_BITS) + ASCII_OFFSET]
  | 3 =>
    let b0 := remBytes.getD 0 0
    let b1 := remBytes.getD 1 0
    let b2 := remBytes.getD 2 0
    let combined := (b0 <<< 16) ||| (b1 <<< 8) ||| b2
    [(u8 (combined >>> 18) &&& MASK_SIX_BITS) + ASCII_OFFSET,
     (u8 (combined >>> 12) &&& MASK_SIX_BITS) + ASCII_OFFSET,
     (u8 (combined >>> 6) &&& MASK_SIX_BITS) + ASCII_OFFSET]
  | _ => []

/-- `decode_core` (`src/decode.rs` lines 67-152). -/
def decode_core (bytes : List Nat) (len : Nat) : List Nat :=
  if len = 0 then []
  else
    let full_chunks := len / 4
    let remaining_chars := len % 4
    let front := decodeFullChunks full_chunks bytes
    if remaining_chars > 0 then
      front ++ decodeRemaining remaining_chars (bytes.drop (full_chunks * 3))
    else front

/-- `decode` (`src/decode.rs` lines 29-34). -/
def decode (bytes : List Nat) (len : Nat) : Except Error (List Nat) :=
  if bytes.length ≠ (len * 6 + 7) / 8 then Except.error Error.InvalidBytesLength
  else Except.ok (decode_core bytes len)

/-- `decode_unchecked` (`src/decode.rs` lines 62-64). -/
def decode_unchecked (bytes : List Nat) (len : Nat) : List Nat :=
  decode_core bytes len

/-! ## `src/struct_api.rs` -/

/-- The `DecSixbit` struct (`src/struct_api.rs` lines 17-22). -/
structure DecSixbit where
  len : Nat
  bytes : List Nat
deriving DecidableEq

/-- `DecSixbit::TRAILING_SPACE_MARKER` (`src/struct_api.rs` line 26). -/
def DecSixbit.TRAILING_SPACE_MARKER : Nat := 0b11

/-- `DecSixbit::new` (`src/struct_api.rs` lines 45-52): encode, then
append the marker byte when the length is a positive multiple of 4 and
the low 6 bits of the last packed byte are all zero. -/
def DecSixbit.new (s : List Nat) : Except Error DecSixbit :=
  match encode s with
  | Except.error e => Except.error e
  | Except.ok (bytes, len) =>
    if len % 4 = 0 ∧ len ≠ 0 ∧ bytes.getLastD 0 &&& 0b111111 = 0 then
      Except.ok { len := len, bytes := bytes ++ [DecSixbit.TRAILING_SPACE_MARKER] }
    else
      Except.ok { len := len, bytes := bytes }

/-- `DecSixbit::as_bytes` (`src/struct_api.rs` lines 68-70). -/
def DecSixbit.as_bytes (d : DecSixbit) : List Nat := d.bytes

/-- `DecSixbit::try_from_slice` (`src/struct_api.rs` lines 116-136):
infer the original length from the byte count; `bytes.len() % 3` is 0,
1 or 2, so the source's `_ => unreachable!()` arm is dead and the
function always returns `Ok`.  The final match arm below is reached
only with remainder 2. -/
def DecSixbit.try_from_slice (bytes : List Nat) : Except Error DecSixbit :=
  let num_full_blocks := bytes.length / 3
  let num_remain_bytes := bytes.length % 3
  let len :=
    match num_remain_bytes with
    | 0 => num_full_blocks * 4
    | 1 =>
      if bytes.getLastD 0 = DecSixbit.TRAILING_SPACE_MARKER then num_full_blocks * 4
      else num_full_blocks * 4 + 1
    | _ => num_full_blocks * 4 + 2
  Except.ok { len := len, bytes := bytes }

/-- The `Display` implementation for `DecSixbit` (`src/struct_api.rs`
lines 234-240): render the stored bytes through `decode_unchecked`. -/
def DecSixbit.render (d : DecSixbit) : List Nat :=
  decode_unchecked d.bytes d.len

deriving instance DecidableEq for Except

/-! ## Bit-arithmetic toolkit -/

lemma mul_two_pow_lor_eq_add (k : Nat) :
    ∀ x y : Nat, y < 2 ^ k → x * 2 ^ k ||| y = x * 2 ^ k + y := by
  induction k with
  | zero =>
    intro x y h
    have : y = 0 := by omega
    subst this
    simp
  | succ k ih =>
    intro x y h
    have hpow : (2:Nat) ^ (k+1) = 2 * 2 ^ k := by ring
    have hxx : 2 * (x * 2 ^ k) = x * 2 ^ (k+1) := by ring
    have hb : Nat.bit y.bodd y.div2 = y := Nat.bit_decomp y
    have hb2 : 2 * y.div2 + y.bodd.toNat = y := by rw [← Nat.bit_val, hb]
    have ht : y.bodd.toNat ≤ 1 := by cases y.bodd <;> simp
    have hx : Nat.bit false (x * 2 ^ k) = x * 2 ^ (k + 1) := by
      rw [Nat.bit_val]; simp; omega
    have hdiv : y.div2 < 2 ^ k := by omega
    calc x * 2 ^ (k+1) ||| y
        = Nat.bit false (x * 2 ^ k) ||| Nat.bit y.bodd y.div2 := by rw [hx, hb]
      _ = Nat.bit (false || y.bodd) (x * 2 ^ k ||| y.div2) :=
          Nat.lor_bit false (x * 2 ^ k) y.bodd y.div2
      _ = Nat.bit y.bodd (x * 2 ^ k + y.div2) := by rw [ih _ _ hdiv]; simp
      _ = x * 2 ^ (k+1) + y := by rw [Nat.bit_val]; omega

lemma lorAdd (x y m k : Nat) (hm : m = 2 ^ k) (h : y < m) : x * m ||| y = x * m + y := by
  subst hm
  exact mul_two_pow_lor_eq_add k x y h

lemma landMod (x m k : Nat) (hm : m + 1 = 2 ^ k) : x &&& m = x % (m + 1) := by
  have h := Nat.and_pow_two_sub_one_eq_mod x k
  rw [← hm] at h
  simpa using h

lemma shlMul (x n k : Nat) (hn : n = 2 ^ k) : x <<< k = x * n := by
  rw [Nat.shiftLeft_eq, hn]

lemma shrDiv (x n k : Nat) (hn : n = 2 ^ k) : x >>> k = x / n := by
  rw [Nat.shiftRight_eq_div_pow, hn]

/-! ## Chunk-level packing/unpacking identities -/

lemma pack4_combined (a b c d : Nat) (ha : a < 64) (hb : b < 64) (hc : c < 64) (hd : d < 64) :
    ((u8 (a <<< 2) ||| (b >>> 4)) <<< 16) |||
      ((u8 ((b &&& 15) <<< 4) ||| (c >>> 2)) <<< 8) |||
      (u8 ((c &&& 3) <<< 6) ||| d)
    = a * 262144 + b * 4096 + c * 64 + d := by
  simp only [u8]
  rw [shlMul a 4 2 (by norm_num), shrDiv b 16 4 (by norm_num),
      landMod b 15 4 (by norm_num), shlMul (b % 16) 16 4 (by norm_num),
      shrDiv c 4 2 (by norm_num),
      landMod c 3 2 (by norm_num), shlMul (c % 4) 64 6 (by norm_num)]
  rw [Nat.mod_eq_of_lt (show a * 4 < 256 by omega),
      Nat.mod_eq_of_lt (show b % 16 * 16 < 256 by omega),
      Nat.mod_eq_of_lt (show c % 4 * 64 < 256 by omega)]
  rw [lorAdd a (b / 16) 4 2 (by norm_num) (by omega),
      lorAdd (b % 16) (c / 4) 16 4 (by norm_num) (by omega),
      lorAdd (c % 4) d 64 6 (by norm_num) (by omega)]
  rw [shlMul (a * 4 + b / 16) 65536 16 (by norm_num),
      shlMul (b % 16 * 16 + c / 4) 256 8 (by norm_num)]
  rw [lorAdd (a * 4 + b / 16) ((b % 16 * 16 + c / 4) * 256) 65536 16 (by norm_num) (by omega)]
  rw [show (a * 4 + b / 16) * 65536 + (b % 16 * 16 + c / 4) * 256
        = ((a * 4 + b / 16) * 256 + (b % 16 * 16 + c / 4)) * 256 by ring]
  rw [lorAdd ((a * 4 + b / 16) * 256 + (b % 16 * 16 + c / 4)) (c % 4 * 64 + d) 256 8
        (by norm_num) (by omega)]
  omega

lemma extract4 (a b c d : Nat) (ha : a < 64) (hb : b < 64) (hc : c < 64) (hd : d < 64) :
    (u8 ((a * 262144 + b * 4096 + c * 64 + d) >>> 18) &&& 63) + 32 = a + 32 ∧
    (u8 ((a * 262144 + b * 4096 + c * 64 + d) >>> 12) &&& 63) + 32 = b + 32 ∧
    (u8 ((a * 262144 + b * 4096 + c * 64 + d) >>> 6) &&& 63) + 32 = c + 32 ∧
    (u8 (a * 262144 + b * 4096 + c * 64 + d) &&& 63) + 32 = d + 32 := by
  simp only [u8]
  rw [shrDiv _ 262144 18 (by norm_num), shrDiv _ 4096 12 (by norm_num),
      shrDiv _ 64 6 (by norm_num)]
  rw [landMod _ 63 6 (by norm_num), landMod _ 63 6 (by norm_num),
      landMod _ 63 6 (by norm_num), landMod _ 63 6 (by norm_num)]
  omega

lemma pack3_combined (a b c : Nat) (ha : a < 64) (hb : b < 64) (hc : c < 64) :
    ((u8 (a <<< 2) ||| (b >>> 4)) <<< 16) |||
      ((u8 ((b &&& 15) <<< 4) ||| (c >>> 2)) <<< 8) |||
      (u8 ((c &&& 3) <<< 6))
    = a * 262144 + b * 4096 + c * 64 := by
  simp only [u8]
  rw [shlMul a 4 2 (by norm_num), shrDiv b 16 4 (by norm_num),
      landMod b 15 4 (by norm_num), shlMul (b % 16) 16 4 (by norm_num),
      shrDiv c 4 2 (by norm_num),
      landMod c 3 2 (by norm_num), shlMul (c % 4) 64 6 (by norm_num)]
  rw [Nat.mod_eq_of_lt (show a * 4 < 256 by omega),
      Nat.mod_eq_of_lt (show b % 16 * 16 < 256 by omega),
      Nat.mod_eq_of_lt (show c % 4 * 64 < 256 by omega)]
  rw [lorAdd a (b / 16) 4 2 (by norm_num) (by omega),
      lorAdd (b % 16) (c / 4) 16 4 (by norm_num) (by omega)]
  rw [shlMul (a * 4 + b / 16) 65536 16 (by norm_num),
      shlMul (b % 16 * 16 + c / 4) 256 8 (by norm_num)]
  rw [lorAdd (a * 4 + b / 16) ((b % 16 * 16 + c / 4) * 256) 65536 16 (by norm_num) (by omega)]
  rw [show (a * 4 + b / 16) * 65536 + (b % 16 * 16 + c / 4) * 256
        = ((a * 4 + b / 16) * 256 + (b % 16 * 16 + c / 4)) * 256 by ring]
  rw [lorAdd ((a * 4 + b / 16) * 256 + (b % 16 * 16 + c / 4)) (c % 4 * 64) 256 8
        (by norm_num) (by omega)]
  omega

lemma extract3 (a b c : Nat) (ha : a < 64) (hb : b < 64) (hc : c < 64) :
    (u8 ((a * 262144 + b * 4096 + c * 64) >>> 18) &&& 63) + 32 = a + 32 ∧
    (u8 ((a * 262144 + b * 4096 + c * 64) >>> 12) &&& 63) + 32 = b + 32 ∧
    (u8 ((a * 262144 + b * 4096 + c * 64) >>> 6) &&& 63) + 32 = c + 32 := by
  simp only [u8]
  rw [shrDiv _ 262144 18 (by norm_num), shrDiv _ 4096 12 (by norm_num),
      shrDiv _ 64 6 (by norm_num)]
  rw [landMod _ 63 6 (by norm_num), landMod _ 63 6 (by norm_num),
      landMod _ 63 6 (by norm_num)]
  omega

lemma pack2_combined (a b : Nat) (ha : a < 64) (hb : b < 64) :
    ((u8 (a <<< 2) ||| (b >>> 4)) <<< 8) ||| (u8 ((b &&& 15) <<< 4)) = a * 1024 + b * 16 := by
  simp only [u8]
  rw [shlMul a 4 2 (by norm_num), shrDiv b 16 4 (by norm_num),
      landMod b 15 4 (by norm_num), shlMul (b % 16) 16 4 (by norm_num)]
  rw [Nat.mod_eq_of_lt (show a * 4 < 256 by omega),
      Nat.mod_eq_of_lt (show b % 16 * 16 < 256 by omega)]
  rw [lorAdd a (b / 16) 4 2 (by norm_num) (by omega)]
  rw [shlMul (a * 4 + b / 16) 256 8 (by norm_num)]
  rw [lorAdd (a * 4 + b / 16) (b % 16 * 16) 256 8 (by norm_num) (by omega)]
  omega

lemma extract2 (a b : Nat) (ha : a < 64) (hb : b < 64) :
    (u8 ((a * 1024 + b * 16) >>> 10) &&& 63) + 32 = a + 32 ∧
    (u8 ((a * 1024 + b * 16) >>> 4) &&& 63) + 32 = b + 32 := by
  simp only [u8]
  rw [shrDiv _ 1024 10 (by norm_num), shrDiv _ 16 4 (by norm_num)]
  rw [landMod _ 63 6 (by norm_num), landMod _ 63 6 (by norm_num)]
  omega

lemma pack1_decode (a : Nat) (ha : a < 64) : (u8 (a <<< 2) >>> 2) + 32 = a + 32 := by
  simp only [u8]
  rw [shlMul a 4 2 (by norm_num), Nat.mod_eq_of_lt (show a * 4 < 256 by omega),
      shrDiv _ 4 2 (by norm_num)]
  omega

lemma u8_shl2_mod4 (x : Nat) : u8 (x <<< 2) % 4 = 0 := by
  simp only [u8]
  rw [shlMul x 4 2 (by norm_num)]
  omega

/-! ## Decomposition of `decode_core` -/

lemma decodeRemaining_zero (bytes : List Nat) : decodeRemaining 0 bytes = [] := rfl

lemma decode_core_eq (bytes : List Nat) (len : Nat) :
    decode_core bytes len =
      decodeFullChunks (len / 4) bytes ++
        decodeRemaining (len % 4) (bytes.drop (len / 4 * 3)) := by
  unfold decode_core
  by_cases h : len = 0
  · subst h
    simp [decodeFullChunks, decodeRemaining_zero]
  · simp only [if_neg h]
    by_cases h2 : len % 4 > 0
    · simp [h2]
    · have h3 : len % 4 = 0 := by omega
      simp [h2, h3, decodeRemaining_zero]

lemma drop_add_three {α : Type} (n : Nat) (a b c : α) (l : List α) :
    List.drop (n + 3) (a :: b :: c :: l) = List.drop n l := by
  rw [show n + 3 = (n + 2) + 1 by omega, List.drop_succ_cons,
      show n + 2 = (n + 1) + 1 by omega, List.drop_succ_cons, List.drop_succ_cons]

/-! ## The central round-trip lemma -/

theorem pack_unpack (s : List Nat) (h : ∀ c ∈ s, 32 ≤ c ∧ c ≤ 95) :
    decode_core (packChunks s) s.length = s := by
  induction s using packChunks.induct with
  | case5 => simp [packChunks, decode_core]
  | case4 c0 =>
    have h0 := h c0 (by simp)
    rw [decode_core_eq]
    simp only [packChunks, ASCII_OFFSET, SHIFT_TWO_BITS, List.length_cons, List.length_nil]
    norm_num [decodeFullChunks, decodeRemaining, List.getD_cons_zero]
    simp only [ASCII_OFFSET]
    have := pack1_decode (c0 - 32) (by omega)
    rw [this]
    omega
  | case3 c0 c1 =>
    have h0 := h c0 (by simp)
    have h1 := h c1 (by simp)
    rw [decode_core_eq]
    simp only [packChunks, ASCII_OFFSET, SHIFT_TWO_BITS, SHIFT_FOUR_BITS, MASK_FOUR_BITS,
      MASK_SIX_BITS, List.length_cons, List.length_nil]
    norm_num [decodeFullChunks, decodeRemaining, List.getD_cons_zero, List.getD_cons_succ]
    rw [pack2_combined (c0 - 32) (c1 - 32) (by omega) (by omega)]
    simp only [ASCII_OFFSET, MASK_SIX_BITS]
    obtain ⟨e1, e2⟩ := extract2 (c0 - 32) (c1 - 32) (by omega) (by omega)
    rw [e1, e2]
    constructor <;> omega
  | case2 c0 c1 c2 =>
    have h0 := h c0 (by simp)
    have h1 := h c1 (by simp)
    have h2 := h c2 (by simp)
    rw [decode_core_eq]
    simp only [packChunks, ASCII_OFFSET, SHIFT_TWO_BITS, SHIFT_FOUR_BITS, SHIFT_SIX_BITS,
      MASK_TWO_BITS, MASK_FOUR_BITS, MASK_SIX_BITS, List.length_cons, List.length_nil]
    norm_num [decodeFullChunks, decodeRemaining, List.getD_cons_zero, List.getD_cons_succ]
    rw [pack3_combined (c0 - 32) (c1 - 32) (c2 - 32) (by omega) (by omega) (by omega)]
    simp only [ASCII_OFFSET, MASK_SIX_BITS]
    obtain ⟨e1, e2, e3⟩ := extract3 (c0 - 32) (c1 - 32) (c2 - 32) (by omega) (by omega) (by omega)
    rw [e1, e2, e3]
    refine ⟨by omega, by omega, by omega⟩
  | case1 c0 c1 c2 c3 rest ih =>
    have h0 := h c0 (by simp)
    have h1 := h c1 (by simp)
    have h2 := h c2 (by simp)
    have h3 := h c3 (by simp)
    have hrest : ∀ c ∈ rest, 32 ≤ c ∧ c ≤ 95 := fun c hc => h c (by simp [hc])
    rw [decode_core_eq]
    simp only [packChunks, ASCII_OFFSET, SHIFT_TWO_BITS, SHIFT_FOUR_BITS, SHIFT_SIX_BITS,
      MASK_TWO_BITS, MASK_FOUR_BITS, MASK_SIX_BITS, List.length_cons]
    rw [show rest.length + 1 + 1 + 1 + 1 = rest.length + 4 by omega]
    rw [show (rest.length + 4) / 4 = rest.length / 4 + 1 by omega]
    rw [show (rest.length + 4) % 4 = rest.length % 4 by omega]
    simp only [decodeFullChunks, List.getD_cons_zero, List.getD_cons_succ, List.drop_succ_cons,
      List.drop_zero]
    rw [show (rest.length / 4 + 1) * 3 = rest.length / 4 * 3 + 3 by ring]
    rw [drop_add_three]
    rw [pack4_combined (c0 - 32) (c1 - 32) (c2 - 32) (c3 - 32)
      (by omega) (by omega) (by omega) (by omega)]
    simp only [ASCII_OFFSET, MASK_SIX_BITS]
    obtain ⟨e1, e2, e3, e4⟩ := extract4 (c0 - 32) (c1 - 32) (c2 - 32) (c3 - 32)
      (by omega) (by omega) (by omega) (by omega)
    rw [e1, e2, e3, e4]
    rw [show c0 - 32 + 32 = c0 by omega, show c1 - 32 + 32 = c1 by omega,
        show c2 - 32 + 32 = c2 by omega, show c3 - 32 + 32 = c3 by omega]
    simp only [List.cons_append]
    rw [← decode_core_eq]
    rw [ih hrest]

/-! ## Structural facts about the encoder -/

lemma packChunks_length (s : List Nat) : (packChunks s).length = (s.length * 3 + 3) / 4 := by
  induction s using packChunks.induct with
  | case1 c0 c1 c2 c3 rest ih =>
    simp only [packChunks, List.length_cons, ih]
    omega
  | case2 c0 c1 c2 => simp [packChunks]
  | case3 c0 c1 => simp [packChunks]
  | case4 c0 => simp [packChunks]
  | case5 => simp [packChunks]

lemma encodeChecked_ok (s : List Nat) (h : ∀ c ∈ s, 32 ≤ c ∧ c ≤ 95) :
    encodeChecked s = Except.ok (packChunks s) := by
  induction s using packChunks.induct with
  | case1 c0 c1 c2 c3 rest ih =>
    have h0 := h c0 (by simp)
    have h1 := h c1 (by simp)
    have h2 := h c2 (by simp)
    have h3 := h c3 (by simp)
    have hrest : ∀ c ∈ rest, 32 ≤ c ∧ c ≤ 95 := fun c hc => h c (by simp [hc])
    simp only [encodeChecked, packChunks, ASCII_OFFSET]
    rw [if_pos (by exact ⟨⟨h0.1, h0.2⟩, ⟨h1.1, h1.2⟩, ⟨h2.1, h2.2⟩, ⟨h3.1, h3.2⟩⟩)]
    rw [ih hrest]
  | case2 c0 c1 c2 =>
    have h0 := h c0 (by simp)
    have h1 := h c1 (by simp)
    have h2 := h c2 (by simp)
    simp only [encodeChecked, packChunks, ASCII_OFFSET]
    rw [if_pos (by exact ⟨⟨h0.1, h0.2⟩, ⟨h1.1, h1.2⟩, ⟨h2.1, h2.2⟩⟩)]
  | case3 c0 c1 =>
    have h0 := h c0 (by simp)
    have h1 := h c1 (by simp)
    simp only [encodeChecked, packChunks, ASCII_OFFSET]
    rw [if_pos (by exact ⟨⟨h0.1, h0.2⟩, ⟨h1.1, h1.2⟩⟩)]
  | case4 c0 =>
    have h0 := h c0 (by simp)
    simp only [encodeChecked, packChunks, ASCII_OFFSET]
    rw [if_pos (by exact ⟨h0.1, h0.2⟩)]
  | case5 => rfl

lemma encodeChecked_error (s : List Nat) (h : ∃ c ∈ s, c < 32 ∨ 95 < c) :
    encodeChecked s = Except.error Error.InvalidCharacter := by
  induction s using packChunks.induct with
  | case1 c0 c1 c2 c3 rest ih =>
    obtain ⟨c, hc, hout⟩ := h
    simp only [encodeChecked, ASCII_OFFSET]
    by_cases hv : (32 ≤ c0 ∧ c0 ≤ 95) ∧ (32 ≤ c1 ∧ c1 ≤ 95) ∧ (32 ≤ c2 ∧ c2 ≤ 95) ∧
        (32 ≤ c3 ∧ c3 ≤ 95)
    · rw [if_pos hv]
      have hcrest : c ∈ rest := by
        simp only [List.mem_cons] at hc
        rcases hc with rfl | rfl | rfl | rfl | hm
        · omega
        · omega
        · omega
        · omega
        · exact hm
      rw [ih ⟨c, hcrest, hout⟩]
    · rw [if_neg hv]
  | case2 c0 c1 c2 =>
    obtain ⟨c, hc, hout⟩ := h
    simp only [encodeChecked, ASCII_OFFSET]
    rw [if_neg]
    intro hv
    simp only [List.mem_cons, List.not_mem_nil, or_false] at hc
    rcases hc with rfl | rfl | rfl <;> omega
  | case3 c0 c1 =>
    obtain ⟨c, hc, hout⟩ := h
    simp only [encodeChecked, ASCII_OFFSET]
    rw [if_neg]
    intro hv
    simp only [List.mem_cons, List.not_mem_nil, or_false] at hc
    rcases hc with rfl | rfl <;> omega
  | case4 c0 =>
    obtain ⟨c, hc, hout⟩ := h
    simp only [encodeChecked, ASCII_OFFSET]
    rw [if_neg]
    intro hv
    simp only [List.mem_cons, List.not_mem_nil, or_false] at hc
    rcases hc with rfl
    omega
  | case5 =>
    obtain ⟨c, hc, hout⟩ := h
    simp at hc

lemma encode_ok (s : List Nat) (h : ∀ c ∈ s, 32 ≤ c ∧ c ≤ 95) :
    encode s = Except.ok (packChunks s, s.length) := by
  have ha : s.all (fun c => c ≤ 127) = true := by
    rw [List.all_eq_true]
    intro c hc
    have := h c hc
    simp
    omega
  simp only [encode, ha, if_true]
  rw [encodeChecked_ok s h]

lemma encode_err_iff (s : List Nat) :
    encode s = Except.error Error.InvalidCharacter ↔ ∃ c ∈ s, c < 32 ∨ 95 < c := by
  constructor
  · intro he
    by_contra hno
    push_neg at hno
    have hv : ∀ c ∈ s, 32 ≤ c ∧ c ≤ 95 := by
      intro c hc
      have := hno c hc
      omega
    rw [encode_ok s hv] at he
    simp at he
  · intro hbad
    unfold encode
    by_cases ha : s.all (fun c => c ≤ 127)
    · rw [if_pos ha, encodeChecked_error s hbad]
    · rw [if_neg ha]

lemma decodeFullChunks_append (k : Nat) (xs ys : List Nat) (h : 3 * k ≤ xs.length) :
    decodeFullChunks k (xs ++ ys) = decodeFullChunks k xs := by
  induction k generalizing xs with
  | zero => rfl
  | succ k ih =>
    simp only [decodeFullChunks]
    rw [List.getD_append _ _ _ _ (by omega), List.getD_append _ _ _ _ (by omega),
        List.getD_append _ _ _ _ (by omega),
        List.drop_append_of_le_length (by omega), ih (xs.drop 3) (by simp; omega)]

lemma getLastD_eq_of_ne_nil (l : List Nat) (hl : l ≠ []) (d1 d2 : Nat) :
    l.getLastD d1 = l.getLastD d2 := by
  have hs : l.getLast?.isSome := List.getLast?_isSome.mpr hl
  obtain ⟨x, hx⟩ := Option.isSome_iff_exists.mp hs
  rw [List.getLastD_eq_getLast?, List.getLastD_eq_getLast?, hx]
  rfl

lemma packChunks_ne_nil (s : List Nat) (hs : s ≠ []) : packChunks s ≠ [] := by
  intro hcontra
  have hlen := packChunks_length s
  rw [hcontra] at hlen
  have : 0 < s.length := List.length_pos.mpr hs
  simp at hlen
  omega

lemma packChunks_last_mod4 (s : List Nat) (h : s.length % 4 = 1) :
    (packChunks s).getLastD 0 % 4 = 0 := by
  induction s using packChunks.induct with
  | case1 c0 c1 c2 c3 rest ih =>
    have hr : rest.length % 4 = 1 := by
      simp only [List.length_cons] at h
      omega
    have hrn : rest ≠ [] := by
      intro hcontra
      rw [hcontra] at hr
      simp at hr
    have hpn : packChunks rest ≠ [] := packChunks_ne_nil rest hrn
    simp only [packChunks, List.getLastD_cons]
    rw [getLastD_eq_of_ne_nil _ hpn _ 0]
    exact ih hr
  | case2 c0 c1 c2 => simp at h
  | case3 c0 c1 => simp at h
  | case4 c0 =>
    simp only [packChunks, SHIFT_TWO_BITS, List.getLastD_cons, List.getLastD_nil]
    exact u8_shl2_mod4 _
  | case5 => simp at h

lemma getD_lt_256 (l : List Nat) (i : Nat) (h : ∀ b ∈ l, b < 256) : l.getD i 0 < 256 := by
  rw [List.getD_eq_getElem?_getD]
  cases hx : l[i]? with
  | none => simp
  | some a =>
    simp only [Option.getD_some]
    exact h a (List.getElem?_mem hx)

lemma decodeFullChunks_mem (k : Nat) (bytes : List Nat) :
    ∀ c ∈ decodeFullChunks k bytes, 32 ≤ c ∧ c ≤ 95 := by
  induction k generalizing bytes with
  | zero => simp [decodeFullChunks]
  | succ k ih =>
    intro c hc
    simp only [decodeFullChunks, MASK_SIX_BITS, ASCII_OFFSET, List.mem_cons] at hc
    rcases hc with rfl | rfl | rfl | rfl | hm
    · have := Nat.and_le_right (n := u8 (((bytes.getD 0 0 <<< 16) ||| (bytes.getD 1 0 <<< 8) |||
        bytes.getD 2 0) >>> 18)) (m := 63)
      omega
    · have := Nat.and_le_right (n := u8 (((bytes.getD 0 0 <<< 16) ||| (bytes.getD 1 0 <<< 8) |||
        bytes.getD 2 0) >>> 12)) (m := 63)
      omega
    · have := Nat.and_le_right (n := u8 (((bytes.getD 0 0 <<< 16) ||| (bytes.getD 1 0 <<< 8) |||
        bytes.getD 2 0) >>> 6)) (m := 63)
      omega
    · have := Nat.and_le_right (n := u8 ((bytes.getD 0 0 <<< 16) ||| (bytes.getD 1 0 <<< 8) |||
        bytes.getD 2 0)) (m := 63)
      omega
    · exact ih (bytes.drop 3) c hm

lemma decodeRemaining_mem (r : Nat) (bytes : List Nat) (h : ∀ b ∈ bytes, b < 256) :
    ∀ c ∈ decodeRemaining r bytes, 32 ≤ c ∧ c ≤ 95 := by
  intro c hc
  rcases r with _ | _ | _ | _ | r
  · simp [decodeRemaining] at hc
  · simp only [decodeRemaining, ASCII_OFFSET, List.mem_cons, List.not_mem_nil, or_false] at hc
    subst hc
    have hb := getD_lt_256 bytes 0 h
    rw [shrDiv _ 4 2 (by norm_num)]
    omega
  · simp only [decodeRemaining, MASK_SIX_BITS, ASCII_OFFSET, List.mem_cons, List.not_mem_nil,
      or_false] at hc
    rcases hc with rfl | rfl
    · have := Nat.and_le_right (n := u8 (((bytes.getD 0 0 <<< 8) ||| bytes.getD 1 0) >>> 10))
        (m := 63)
      omega
    · have := Nat.and_le_right (n := u8 (((bytes.getD 0 0 <<< 8) ||| bytes.getD 1 0) >>> 4))
        (m := 63)
      omega
  · simp only [decodeRemaining, MASK_SIX_BITS, ASCII_OFFSET, List.mem_cons, List.not_mem_nil,
      or_false] at hc
    rcases hc with rfl | rfl | rfl
    · have := Nat.and_le_right (n := u8 (((bytes.getD 0 0 <<< 16) ||| (bytes.getD 1 0 <<< 8) |||
        bytes.getD 2 0) >>> 18)) (m := 63)
      omega
    · have := Nat.and_le_right (n := u8 (((bytes.getD 0 0 <<< 16) ||| (bytes.getD 1 0 <<< 8) |||
        bytes.getD 2 0) >>> 12)) (m := 63)
      omega
    · have := Nat.and_le_right (n := u8 (((bytes.getD 0 0 <<< 16) ||| (bytes.getD 1 0 <<< 8) |||
        bytes.getD 2 0) >>> 6)) (m := 63)
      omega
  · simp [decodeRemaining] at hc

lemma try_from_slice_eq (bytes : List Nat) :
    DecSixbit.try_from_slice bytes = Except.ok
      { len := if bytes.length % 3 = 0 then bytes.length / 3 * 4
               else if bytes.length % 3 = 1 then
                 (if bytes.getLastD 0 = DecSixbit.TRAILING_SPACE_MARKER then bytes.length / 3 * 4
                  else bytes.length / 3 * 4 + 1)
               else bytes.length / 3 * 4 + 2,
        bytes := bytes } := by
  unfold DecSixbit.try_from_slice
  rcases hm : bytes.length % 3 with _ | _ | m
  · simp [hm]
  · simp [hm]
  · have h2 : m = 0 := by omega
    subst h2
    simp [hm]

/-- Claim C1: for every string whose bytes all lie in 32..=95, `encode`
succeeds returning a byte buffer together with the string length, and
`decode` on that buffer and length returns exactly the original string. -/
theorem claim_c1_roundtrip (s : List Nat) (h : ∀ c ∈ s, 32 ≤ c ∧ c ≤ 95) :
    ∃ bs, encode s = Except.ok (bs, s.length) ∧ decode bs s.length = Except.ok s := by
  refine ⟨packChunks s, encode_ok s h, ?_⟩
  unfold decode
  rw [if_neg (show ¬((packChunks s).length ≠ (s.length * 6 + 7) / 8) by
    rw [packChunks_length]; omega)]
  rw [pack_unpack s h]

theorem claim_c1_witness :
    ∃ bs, encode [72, 69, 76, 76, 79] = Except.ok (bs, 5) ∧
      decode bs 5 = Except.ok [72, 69, 76, 76, 79] :=
  claim_c1_roundtrip [72, 69, 76, 76, 79] (by decide)

/-- Claim C4: for a valid string of length `n`, the buffer returned by
`encode` (and by `encode_unchecked`) has exactly `(n * 3 + 3) / 4 =
ceil(n * 3 / 4)` bytes; the empty string yields an empty buffer and
length 0. -/
theorem claim_c4_size :
    (∀ s : List Nat, (∀ c ∈ s, 32 ≤ c ∧ c ≤ 95) →
        ∃ bs, encode s = Except.ok (bs, s.length) ∧ bs.length = (s.length * 3 + 3) / 4) ∧
    (∀ s : List Nat, (encode_unchecked s).1.length = (s.length * 3 + 3) / 4) ∧
    encode [] = Except.ok ([], 0) := by
  refine ⟨?_, ?_, rfl⟩
  · intro s h
    exact ⟨packChunks s, encode_ok s h, packChunks_length s⟩
  · intro s
    exact packChunks_length s

theorem claim_c4_witness :
    ∃ bs, encode [65, 66, 67, 68, 69] = Except.ok (bs, 5) ∧ bs.length = 4 :=
  claim_c4_size.1 [65, 66, 67, 68, 69] (by decide)

/-- Claim C5: `decode bytes len` returns `InvalidBytesLength` exactly
when `bytes.length ≠ (len * 6 + 7) / 8 = ceil(len * 6 / 8)` and returns
`Ok` otherwise; in particular 2 bytes with claimed length 3 fail, and a
non-empty buffer with length 0 fails. -/
theorem claim_c5_mismatch (bytes : List Nat) (len : Nat) :
    (decode bytes len = Except.error Error.InvalidBytesLength ↔
      bytes.length ≠ (len * 6 + 7) / 8) ∧
    (bytes.length = (len * 6 + 7) / 8 → decode bytes len = Except.ok (decode_core bytes len)) ∧
    decode [0, 0] 3 = Except.error Error.InvalidBytesLength ∧
    decode [0] 0 = Except.error Error.InvalidBytesLength := by
  refine ⟨⟨?_, ?_⟩, ?_, by decide, by decide⟩
  · intro h
    by_cases hc : bytes.length ≠ (len * 6 + 7) / 8
    · exact hc
    · unfold decode at h
      rw [if_neg hc] at h
      simp at h
  · intro hne
    unfold decode
    rw [if_pos hne]
  · intro heq
    unfold decode
    rw [if_neg (by omega)]

theorem claim_c5_witness :
    decode [0, 0] 3 = Except.error Error.InvalidBytesLength ∧
    decode [134, 40, 192] 4 = Except.ok (decode_core [134, 40, 192] 4) :=
  ⟨(claim_c5_mismatch [0, 0] 3).1.mpr (by decide),
   (claim_c5_mismatch [134, 40, 192] 4).2.1 (by decide)⟩

/-- Claim C6: checked `encode` returns `InvalidCharacter` if and only
if some byte of the input falls outside 32..=95 (this covers control
bytes, bytes above 95, and the `≥ 128` bytes of non-ASCII UTF-8
sequences); the error constructor carries no partial output. -/
theorem claim_c6_invalid_character (s : List Nat) :
    encode s = Except.error Error.InvalidCharacter ↔ ∃ c ∈ s, c < 32 ∨ 95 < c :=
  encode_err_iff s

/-- Claim C7: on valid strings `encode` and `encode_unchecked` agree,
and on length-consistent buffers `decode` and `decode_unchecked`
agree. -/
theorem claim_c7_checked_unchecked :
    (∀ s : List Nat, (∀ c ∈ s, 32 ≤ c ∧ c ≤ 95) →
        encode s = Except.ok (encode_unchecked s)) ∧
    (∀ (bytes : List Nat) (len : Nat), bytes.length = (len * 6 + 7) / 8 →
        decode bytes len = Except.ok (decode_unchecked bytes len)) := by
  constructor
  · intro s h
    rw [encode_ok s h]
    rfl
  · intro bytes len h
    unfold decode decode_unchecked
    rw [if_neg (by omega)]

theorem claim_c7_witness :
    encode [65, 66] = Except.ok (encode_unchecked [65, 66]) ∧
    decode [134, 32] 2 = Except.ok (decode_unchecked [134, 32] 2) :=
  ⟨claim_c7_checked_unchecked.1 [65, 66] (by decide),
   claim_c7_checked_unchecked.2 [134, 32] 2 (by decide)⟩

/-- Claim C8: on a well-formed input (byte values `< 256`, byte count
equal to `(len * 6 + 7) / 8`), `decode` succeeds and every byte of the
output lies in 32..=95, because each extracted 6-bit value is masked to
0..=63 before the offset 32 is added. -/
theorem claim_c8_output_range (bytes : List Nat) (len : Nat)
    (hb : ∀ b ∈ bytes, b < 256) (hlen : bytes.length = (len * 6 + 7) / 8) :
    ∃ out, decode bytes len = Except.ok out ∧ ∀ c ∈ out, 32 ≤ c ∧ c ≤ 95 := by
  refine ⟨decode_core bytes len, ?_, ?_⟩
  · unfold decode
    rw [if_neg (by omega)]
  · rw [decode_core_eq]
    intro c hc
    rcases List.mem_append.mp hc with hc1 | hc2
    · exact decodeFullChunks_mem _ _ c hc1
    · exact decodeRemaining_mem _ _ (fun b hb2 => hb b (List.mem_of_mem_drop hb2)) c hc2

theorem claim_c8_witness :
    ∃ out, decode [134, 40, 192] 4 = Except.ok out ∧ ∀ c ∈ out, 32 ≤ c ∧ c ≤ 95 :=
  claim_c8_output_range [134, 40, 192] 4 (by decide) (by decide)

lemma new_eq (s : List Nat) (h : ∀ c ∈ s, 32 ≤ c ∧ c ≤ 95) :
    DecSixbit.new s = Except.ok
      { len := s.length,
        bytes :=
          if s.length % 4 = 0 ∧ s.length ≠ 0 ∧ (packChunks s).getLastD 0 &&& 63 = 0 then
            packChunks s ++ [DecSixbit.TRAILING_SPACE_MARKER]
          else packChunks s } := by
  unfold DecSixbit.new
  rw [encode_ok s h]
  show (if s.length % 4 = 0 ∧ s.length ≠ 0 ∧ (packChunks s).getLastD 0 &&& 63 = 0 then
          Except.ok (DecSixbit.mk s.length (packChunks s ++ [DecSixbit.TRAILING_SPACE_MARKER]))
        else Except.ok (DecSixbit.mk s.length (packChunks s))) = _
  by_cases hcond : s.length % 4 = 0 ∧ s.length ≠ 0 ∧ (packChunks s).getLastD 0 &&& 63 = 0
  · rw [if_pos hcond, if_pos hcond]
  · rw [if_neg hcond, if_neg hcond]

lemma try_len_pack (s : List Nat) (h3 : s.length % 4 ≠ 3) :
    (if (packChunks s).length % 3 = 0 then (packChunks s).length / 3 * 4
     else if (packChunks s).length % 3 = 1 then
       (if (packChunks s).getLastD 0 = DecSixbit.TRAILING_SPACE_MARKER then
          (packChunks s).length / 3 * 4
        else (packChunks s).length / 3 * 4 + 1)
     else (packChunks s).length / 3 * 4 + 2) = s.length := by
  have hlen := packChunks_length s
  have h4 : s.length % 4 = 0 ∨ s.length % 4 = 1 ∨ s.length % 4 = 2 := by omega
  rcases h4 with h0 | h1 | h2
  · rw [if_pos (by omega)]
    omega
  · have hne : (packChunks s).getLastD 0 ≠ DecSixbit.TRAILING_SPACE_MARKER := by
      have hm := packChunks_last_mod4 s h1
      intro hcontra
      rw [hcontra] at hm
      simp [DecSixbit.TRAILING_SPACE_MARKER] at hm
    rw [if_neg (by omega), if_pos (by omega), if_neg hne]
    omega
  · rw [if_neg (by omega), if_neg (by omega)]
    omega

lemma try_len_marker (s : List Nat) (h0 : s.length % 4 = 0) (_hs : s.length ≠ 0) :
    (if (packChunks s ++ [DecSixbit.TRAILING_SPACE_MARKER]).length % 3 = 0 then
       (packChunks s ++ [DecSixbit.TRAILING_SPACE_MARKER]).length / 3 * 4
     else if (packChunks s ++ [DecSixbit.TRAILING_SPACE_MARKER]).length % 3 = 1 then
       (if (packChunks s ++ [DecSixbit.TRAILING_SPACE_MARKER]).getLastD 0 =
           DecSixbit.TRAILING_SPACE_MARKER then
          (packChunks s ++ [DecSixbit.TRAILING_SPACE_MARKER]).length / 3 * 4
        else (packChunks s ++ [DecSixbit.TRAILING_SPACE_MARKER]).length / 3 * 4 + 1)
     else (packChunks s ++ [DecSixbit.TRAILING_SPACE_MARKER]).length / 3 * 4 + 2) = s.length := by
  have hlen := packChunks_length s
  have hBl : (packChunks s ++ [DecSixbit.TRAILING_SPACE_MARKER]).length =
      (packChunks s).length + 1 := by simp
  rw [if_neg (by omega), if_pos (by omega), if_pos (List.getLastD_concat _ _ _)]
  omega

/-- Claim C3: `DecSixbit.new` appends exactly one trailing marker byte
of value 3 to the packed bytes if and only if the length is positive, a
multiple of 4, and the low 6 bits of the last packed byte are zero; the
envelope of "TEST    " has 7 bytes while that of "TESTTEST" has 6. -/
theorem claim_c3_marker_rule :
    (∀ s : List Nat, (∀ c ∈ s, 32 ≤ c ∧ c ≤ 95) →
        DecSixbit.new s = Except.ok
          { len := s.length,
            bytes :=
              if 0 < s.length ∧ s.length % 4 = 0 ∧ (packChunks s).getLastD 0 &&& 63 = 0 then
                packChunks s ++ [DecSixbit.TRAILING_SPACE_MARKER]
              else packChunks s }) ∧
    (∃ d, DecSixbit.new [84, 69, 83, 84, 32, 32, 32, 32] = Except.ok d ∧
      d.bytes.length = 7) ∧
    (∃ d, DecSixbit.new [84, 69, 83, 84, 84, 69, 83, 84] = Except.ok d ∧
      d.bytes.length = 6) := by
  refine ⟨?_, ⟨⟨8, [210, 92, 244, 0, 0, 0, 3]⟩, by decide, by decide⟩,
    ⟨⟨8, [210, 92, 244, 210, 92, 244]⟩, by decide, by decide⟩⟩
  intro s h
  rw [new_eq s h]
  by_cases hcond : s.length % 4 = 0 ∧ s.length ≠ 0 ∧ (packChunks s).getLastD 0 &&& 63 = 0
  · rw [if_pos hcond, if_pos ⟨Nat.pos_of_ne_zero hcond.2.1, hcond.1, hcond.2.2⟩]
  · rw [if_neg hcond, if_neg (fun hc => hcond ⟨hc.2.1, Nat.pos_iff_ne_zero.mp hc.1, hc.2.2⟩)]

theorem claim_c3_witness :
    DecSixbit.new [72, 69, 76, 76] = Except.ok
      { len := 4,
        bytes :=
          if 0 < (4:Nat) ∧ (4:Nat) % 4 = 0 ∧ (packChunks [72, 69, 76, 76]).getLastD 0 &&& 63 = 0
          then packChunks [72, 69, 76, 76] ++ [DecSixbit.TRAILING_SPACE_MARKER]
          else packChunks [72, 69, 76, 76] } :=
  claim_c3_marker_rule.1 [72, 69, 76, 76] (by decide)

/-- Claim C9, counterexample: contrary to the claim, there is no byte
slice on which `DecSixbit.try_from_slice` returns an error; the
byte-count remainder modulo 3 is never 3, the `Error` enum has no
`MalformedEnvelope` variant, and the function is total and always
returns `Ok`. -/
theorem claim_c9_counterexample :
    ¬ ∃ (bs : List Nat) (e : Error), DecSixbit.try_from_slice bs = Except.error e := by
  rintro ⟨bs, e, h⟩
  rw [try_from_slice_eq] at h
  simp at h

/-- Claim C9, amended: reconstructing the envelope from raw bytes never
fails; `DecSixbit.try_from_slice` returns `Ok` on every byte slice,
storing the slice unchanged. -/
theorem claim_c9_amended (bs : List Nat) :
    ∃ d, DecSixbit.try_from_slice bs = Except.ok d ∧ d.bytes = bs := by
  rw [try_from_slice_eq]
  exact ⟨_, rfl, rfl⟩

/-- Claim C10: for a valid string with length ≡ 1 (mod 4), the final
byte produced by the encoder has its low two bits zero and therefore
never equals the reserved marker value 3, so `try_from_slice` infers
the correct length from the encoder output. -/
theorem claim_c10_remainder_one (s : List Nat) (h1 : s.length % 4 = 1)
    (hv : ∀ c ∈ s, 32 ≤ c ∧ c ≤ 95) :
    encode s = Except.ok (packChunks s, s.length) ∧
    (packChunks s).getLastD 0 &&& 3 = 0 ∧
    (packChunks s).getLastD 0 ≠ DecSixbit.TRAILING_SPACE_MARKER ∧
    ∃ d, DecSixbit.try_from_slice (packChunks s) = Except.ok d ∧ d.len = s.length := by
  have hmod := packChunks_last_mod4 s h1
  have hand := landMod ((packChunks s).getLastD 0) 3 2 (by norm_num)
  have hne : (packChunks s).getLastD 0 ≠ DecSixbit.TRAILING_SPACE_MARKER := by
    intro hcontra
    rw [hcontra] at hmod
    simp [DecSixbit.TRAILING_SPACE_MARKER] at hmod
  refine ⟨encode_ok s hv, by rw [hand]; omega, hne, ?_⟩
  rw [try_from_slice_eq]
  refine ⟨_, rfl, ?_⟩
  show (if (packChunks s).length % 3 = 0 then (packChunks s).length / 3 * 4
        else if (packChunks s).length % 3 = 1 then
          (if (packChunks s).getLastD 0 = DecSixbit.TRAILING_SPACE_MARKER then
             (packChunks s).length / 3 * 4
           else (packChunks s).length / 3 * 4 + 1)
        else (packChunks s).length / 3 * 4 + 2) = s.length
  have hlen := packChunks_length s
  rw [if_neg (by omega), if_pos (by omega), if_neg hne]
  omega

theorem claim_c10_witness :
    encode [65] = Except.ok (packChunks [65], 1) ∧
    (packChunks [65]).getLastD 0 &&& 3 = 0 ∧
    (packChunks [65]).getLastD 0 ≠ DecSixbit.TRAILING_SPACE_MARKER ∧
    ∃ d, DecSixbit.try_from_slice (packChunks [65]) = Except.ok d ∧ d.len = 1 :=
  claim_c10_remainder_one [65] (by decide) (by decide)

/-- Claim C2, counterexample: for the string "ABC" (length 3), the
envelope round trip is not the identity: `DecSixbit.new` yields the 3
packed bytes `[134, 40, 192]`, `try_from_slice` on those bytes infers
length 4 (not 3), and the rendered text is "ABC " (a trailing space is
added), not "ABC". -/
theorem claim_c2_counterexample :
    DecSixbit.new [65, 66, 67] = Except.ok (DecSixbit.mk 3 [134, 40, 192]) ∧
    DecSixbit.try_from_slice (DecSixbit.as_bytes (DecSixbit.mk 3 [134, 40, 192])) =
      Except.ok (DecSixbit.mk 4 [134, 40, 192]) ∧
    DecSixbit.render (DecSixbit.mk 4 [134, 40, 192]) = [65, 66, 67, 32] ∧
    (4 : Nat) ≠ 3 ∧ [65, 66, 67, 32] ≠ ([65, 66, 67] : List Nat) := by
  refine ⟨by decide, by decide, by decide, by decide, by decide⟩

/-- Claim C2, amended: for every string with bytes in 32..=95 whose
length is not ≡ 3 (mod 4), reconstructing from the envelope's raw
bytes alone is reversible: `try_from_slice` on `(new s).as_bytes`
succeeds, recovers the original length, and renders the original
string. -/
theorem claim_c2_envelope_roundtrip (s : List Nat) (hv : ∀ c ∈ s, 32 ≤ c ∧ c ≤ 95)
    (h3 : s.length % 4 ≠ 3) :
    ∃ d e, DecSixbit.new s = Except.ok d ∧
      DecSixbit.try_from_slice (DecSixbit.as_bytes d) = Except.ok e ∧
      e.len = s.length ∧ DecSixbit.render e = s := by
  have hlen := packChunks_length s
  rw [new_eq s hv]
  by_cases hcond : s.length % 4 = 0 ∧ s.length ≠ 0 ∧ (packChunks s).getLastD 0 &&& 63 = 0
  · simp only [if_pos hcond]
    have ht := try_from_slice_eq (packChunks s ++ [DecSixbit.TRAILING_SPACE_MARKER])
    rw [try_len_marker s hcond.1 hcond.2.1] at ht
    refine ⟨_, DecSixbit.mk s.length (packChunks s ++ [DecSixbit.TRAILING_SPACE_MARKER]),
      rfl, ht, rfl, ?_⟩
    show decode_unchecked (packChunks s ++ [DecSixbit.TRAILING_SPACE_MARKER]) s.length = s
    unfold decode_unchecked
    rw [decode_core_eq]
    have hp := pack_unpack s hv
    rw [decode_core_eq] at hp
    rw [hcond.1, decodeRemaining_zero] at hp ⊢
    rw [decodeFullChunks_append _ _ _ (by omega)]
    exact hp
  · simp only [if_neg hcond]
    have ht := try_from_slice_eq (packChunks s)
    rw [try_len_pack s h3] at ht
    refine ⟨_, DecSixbit.mk s.length (packChunks s), rfl, ht, rfl, ?_⟩
    show decode_unchecked (packChunks s) s.length = s
    exact pack_unpack s hv

theorem claim_c2_witness :
    ∃ d e, DecSixbit.new [84, 69, 83, 84, 32, 32, 32, 32] = Except.ok d ∧
      DecSixbit.try_from_slice (DecSixbit.as_bytes d) = Except.ok e ∧
      e.len = 8 ∧ DecSixbit.render e = [84, 69, 83, 84, 32, 32, 32, 32] :=
  claim_c2_envelope_roundtrip [84, 69, 83, 84, 32, 32, 32, 32] (by decide) (by decide)
